import Mathlib

/-!
Verification of the SCUnit core against its C sources: the xoshiro256**
pseudorandom number generator (`src/src/random.c`), the sequential execution
order of suites and tests (`src/src/scunit.c`, `src/src/suite.c`), summary
aggregation, the test-registry growth policy, the execution context
(`src/src/context.c`) and the growable buffer writer (`src/unnamed/part_007`).

Machine integers are modelled as `Nat`/`Int` with explicit `% 2^w` where the C
code computes modulo a power of two.  C `double` values produced by the PRNG are
modelled as exact rationals: every value the generator's `next` produces,
`(result >> 11) * (1.0 / (1ULL << 53))`, is a dyadic rational with 53-bit
numerator and is represented exactly by an IEEE double, so the `ℚ` model is
bit-faithful for `next` itself; subsequent arithmetic on draws is modelled as
exact rational arithmetic.
-/

/-- Modulus of 64-bit unsigned arithmetic. -/
def W64 : Nat := 2 ^ 64

/-- Modulus of 32-bit unsigned arithmetic. -/
def W32 : Nat := 2 ^ 32

/-- The odd additive constant of the SplitMix64 seed expansion
(`0x9E3779B97F4A7C15` in `scunit_random_setSeed`, src/src/random.c:43). -/
def GOLDEN_GAMMA : Nat := 0x9E3779B97F4A7C15

/-- First odd multiplier of the SplitMix64 mixing rounds
(`0xBF58476D1CE4E5B9`, src/src/random.c:44). -/
def MULTIPLIER_ONE : Nat := 0xBF58476D1CE4E5B9

/-- Second odd multiplier of the SplitMix64 mixing rounds
(`0x94D049BB133111EB`, src/src/random.c:45). -/
def MULTIPLIER_TWO : Nat := 0x94D049BB133111EB

/-- State of `SCUnitRandom` (src/src/random.c:5-19): the stored seed and the
four 64-bit words of the xoshiro256** state. -/
structure SCUnitRandom where
  seed : Nat
  state0 : Nat
  state1 : Nat
  state2 : Nat
  state3 : Nat
  deriving DecidableEq, Repr

/-- The SplitMix64 avalanche mix applied to one already-incremented seed value:
the body of the loop in `scunit_random_setSeed` (src/src/random.c:44-46). -/
def splitmix64 (x : Nat) : Nat :=
  let r1 := ((x ^^^ (x >>> 30)) * MULTIPLIER_ONE) % W64
  let r2 := ((r1 ^^^ (r1 >>> 27)) * MULTIPLIER_TWO) % W64
  r2 ^^^ (r2 >>> 31)

/-- `scunit_random_setSeed` (src/src/random.c:40-48): stores the seed and
expands it into the four state words, with the local `seed` variable
incremented by `GOLDEN_GAMMA` (mod 2^64) before each mixing step. -/
def scunit_random_setSeed (random : SCUnitRandom) (seed : Nat) : SCUnitRandom :=
  let z1 := (seed + GOLDEN_GAMMA) % W64
  let z2 := (z1 + GOLDEN_GAMMA) % W64
  let z3 := (z2 + GOLDEN_GAMMA) % W64
  let z4 := (z3 + GOLDEN_GAMMA) % W64
  { random with
      seed := seed
      state0 := splitmix64 z1
      state1 := splitmix64 z2
      state2 := splitmix64 z3
      state3 := splitmix64 z4 }

/-- `scunit_random_withSeed` (src/src/random.c:25-34): allocates an instance
(whose memory content `uninit` is arbitrary) and delegates to
`scunit_random_setSeed`. -/
def scunit_random_withSeed (uninit : SCUnitRandom) (seed : Nat) : SCUnitRandom :=
  scunit_random_setSeed uninit seed

/-- `rotateLeft` (src/src/random.c:57-59): 64-bit rotate left,
`(value << bits) | (value >> (64 - bits))`. -/
def rotateLeft (value : Nat) (bits : Nat) : Nat :=
  (((value % W64) <<< bits) % W64) ||| ((value % W64) >>> (64 - bits))

/-- The output word of one draw of `next` (src/src/random.c:67):
`rotateLeft(state[1] * 5, 7) * 9` in 64-bit arithmetic. -/
def nextOutput (random : SCUnitRandom) : Nat :=
  (rotateLeft ((random.state1 * 5) % W64) 7 * 9) % W64

/-- The state update of one draw of `next` (src/src/random.c:68-74). -/
def nextState (random : SCUnitRandom) : SCUnitRandom :=
  let temp := ((random.state1 % W64) <<< 17) % W64
  let s2 := random.state2 ^^^ random.state0
  let s3 := random.state3 ^^^ random.state1
  let s1 := random.state1 ^^^ s2
  let s0 := random.state0 ^^^ s3
  let s2' := s2 ^^^ temp
  let s3' := rotateLeft s3 45
  { random with state0 := s0, state1 := s1, state2 := s2', state3 := s3' }

/-- The `double` returned by `next` (src/src/random.c:75), modelled exactly:
`(result >> 11) * (1.0 / (1ULL << 53))`. -/
def nextDouble (random : SCUnitRandom) : ℚ :=
  ((nextOutput random >>> 11 : Nat) : ℚ) * (1 / ((1 <<< 53 : Nat) : ℚ))

/-- The sequence of the first `n` draws (`next` values) of an instance. -/
def draws (random : SCUnitRandom) : Nat → List ℚ
  | 0 => []
  | n + 1 => nextDouble random :: draws (nextState random) n

/-- Modelled from the spec's words (refinement side of the bit-exactness
claim): one step of "the standard SplitMix64 expansion": add the odd constant
to the running seed, then apply "two xor-shift-multiply rounds with the two odd
multipliers, then a final xor-shift"; returns the mixed output together with
the advanced running seed. -/
def specSplitMixNext (z : Nat) : Nat × Nat :=
  let z' := (z + GOLDEN_GAMMA) % W64
  let r1 := ((z' ^^^ (z' >>> 30)) * MULTIPLIER_ONE) % W64
  let r2 := ((r1 ^^^ (r1 >>> 27)) * MULTIPLIER_TWO) % W64
  (r2 ^^^ (r2 >>> 31), z')

/-- Modelled from the spec's words: `set_seed` "expands the 64-bit seed into
the four 64-bit state words by repeated SplitMix64 steps". -/
def specSeedExpansion (seed : Nat) : SCUnitRandom :=
  let p0 := specSplitMixNext seed
  let p1 := specSplitMixNext p0.2
  let p2 := specSplitMixNext p1.2
  let p3 := specSplitMixNext p2.2
  { seed := seed, state0 := p0.1, state1 := p1.1, state2 := p2.1, state3 := p3.1 }

/-- Modelled from the spec's words: 64-bit `rotate_left`. -/
def specRotateLeft (value : Nat) (bits : Nat) : Nat :=
  (((value % W64) <<< bits) % W64) ||| ((value % W64) >>> (64 - bits))

/-- Modelled from the spec's words: each draw "outputs
`rotate_left(state[1] * 5, 7) * 9`" in 64-bit arithmetic. -/
def specDrawOutput (random : SCUnitRandom) : Nat :=
  (specRotateLeft ((random.state1 * 5) % W64) 7 * 9) % W64

/-- Modelled from the spec's words: each draw "updates the state exactly as
`t = state[1] << 17; state[2] ^= state[0]; state[3] ^= state[1];
state[1] ^= state[2]; state[0] ^= state[3]; state[2] ^= t;
state[3] = rotate_left(state[3], 45)`". -/
def specDrawUpdate (random : SCUnitRandom) : SCUnitRandom :=
  let t := ((random.state1 % W64) <<< 17) % W64
  let s2 := random.state2 ^^^ random.state0
  let s3 := random.state3 ^^^ random.state1
  let s1 := random.state1 ^^^ s2
  let s0 := random.state0 ^^^ s3
  let s2' := s2 ^^^ t
  let s3' := specRotateLeft s3 45
  { random with state0 := s0, state1 := s1, state2 := s2', state3 := s3' }

/-- Modelled from the spec's words: the draw "maps the output to a double in
`[0,1)` as `(output >> 11) * 2^-53`". -/
def specDrawDouble (random : SCUnitRandom) : ℚ :=
  ((specDrawOutput random >>> 11 : Nat) : ℚ) * (2 : ℚ) ^ (-(53 : ℤ))

/-- Truncation toward zero of a rational, the semantics of a C cast from a
floating-point value to an integer type. -/
def truncQ (q : ℚ) : ℤ :=
  if 0 ≤ q then ⌊q⌋ else ⌈q⌉

/-- `scunit_random_uint32` (src/src/random.c:78-80):
`min + (uint32_t) (next(random) * (max - min + 1))` with the width computed in
32-bit unsigned arithmetic and the result reduced mod 2^32. -/
def scunit_random_uint32 (random : SCUnitRandom) (min max : Nat) : Nat :=
  (min + ⌊nextDouble random * (((max - min + 1) % W32 : Nat) : ℚ)⌋₊) % W32

/-- `scunit_random_uint64` (src/src/random.c:86-88):
`min + (uint64_t) (next(random) * (max - min + 1))` with the width computed in
64-bit unsigned arithmetic and the result reduced mod 2^64. -/
def scunit_random_uint64 (random : SCUnitRandom) (min max : Nat) : Nat :=
  (min + ⌊nextDouble random * (((max - min + 1) % W64 : Nat) : ℚ)⌋₊) % W64

/-- `scunit_random_int32` (src/src/random.c:82-84):
`min + (int32_t) (next(random) * (max - min + 1))`, modelled as exact integer
arithmetic; faithful on the inputs on which the C computation is free of
signed-overflow undefined behavior. -/
def scunit_random_int32 (random : SCUnitRandom) (min max : ℤ) : ℤ :=
  min + truncQ (nextDouble random * ((max - min + 1 : ℤ) : ℚ))

/-- `scunit_random_int64` (src/src/random.c:90-92), modelled like
`scunit_random_int32`. -/
def scunit_random_int64 (random : SCUnitRandom) (min max : ℤ) : ℤ :=
  min + truncQ (nextDouble random * ((max - min + 1 : ℤ) : ℚ))

/-- `scunit_random_float` (src/src/random.c:94-96):
`min + (float) (next(random) * (max - min))`.  The three IEEE operations round:
the `float` subtraction `max - min`, the `double` multiplication followed by
the cast to `float`, and the final `float` addition.  The roundings are
modelled by oracle functions `flF` (round-to-`float`) and `flD`
(round-to-`double`), so that theorems quantify over every possible rounding
behavior rather than assuming exact arithmetic. -/
def scunit_random_float (flF flD : ℚ → ℚ) (random : SCUnitRandom) (min max : ℚ) : ℚ :=
  flF (min + flF (flD (nextDouble random * flF (max - min))))

/-- `scunit_random_double` (src/src/random.c:98-100):
`min + (next(random) * (max - min))`.  The three IEEE `double` operations
(subtraction, multiplication, addition) each round; the rounding is modelled
by an oracle function `fl`, so that theorems quantify over every possible
rounding behavior rather than assuming exact arithmetic. -/
def scunit_random_double (fl : ℚ → ℚ) (random : SCUnitRandom) (min max : ℚ) : ℚ :=
  fl (min + fl (nextDouble random * fl (max - min)))

/-- A fragment of IEEE round-to-nearest-even for `double`: on the interval
`(1 + 2^-53, 1 + 2^-52]` — the upper half of the gap between the consecutive
doubles `1` and `1 + 2^-52`, midpoint excluded — round-to-nearest returns
`1 + 2^-52`; everywhere else this oracle is the identity (all other values this
development evaluates it on are exactly representable). -/
def roundDemo (x : ℚ) : ℚ :=
  if 1 + 1 / 2 ^ 53 < x ∧ x ≤ 1 + 1 / 2 ^ 52 then 1 + 1 / 2 ^ 52 else x

/-- The sequential execution order of the tests of a suite: iteration `i` of
the loop in `scunit_suite_run` executes the test at index
`registeredTests - 1 - i` (src/src/suite.c:214-222). -/
def suiteRunTestOrder (registeredTests : Nat) : List Nat :=
  (List.range registeredTests).map (fun i => registeredTests - 1 - i)

/-- The sequential execution order of the registered suites:
`scunit_executeSuites` initializes `suiteIndices[i] = registeredSuites - 1 - i`
and, under `SCUNIT_ORDER_SEQUENTIAL`, executes the suites in exactly that index
order (src/src/scunit.c:281-293, 320-321). -/
def executeSuitesOrder (registeredSuites : Nat) : List Nat :=
  (List.range registeredSuites).map (fun i => registeredSuites - 1 - i)

/-- `SCUnitResult` (the tri-state outcome a test leaves in its context):
`SCUNIT_RESULT_PASS`, `SCUNIT_RESULT_SKIP` or `SCUNIT_RESULT_FAIL`. -/
inductive SCUnitResult where
  | pass
  | skip
  | fail
  deriving DecidableEq, Repr

/-- `SCUnitSummary`: the three counters of a suite run. -/
structure SCUnitSummary where
  passedTests : Nat
  skippedTests : Nat
  failedTests : Nat
  deriving DecidableEq, Repr

/-- The `switch` on the context result in `scunit_suite_run`
(src/src/suite.c:239-262): each executed test increments exactly one of the
three counters. -/
def tallyResult (summary : SCUnitSummary) (result : SCUnitResult) : SCUnitSummary :=
  match result with
  | SCUnitResult.pass => { summary with passedTests := summary.passedTests + 1 }
  | SCUnitResult.skip => { summary with skippedTests := summary.skippedTests + 1 }
  | SCUnitResult.fail => { summary with failedTests := summary.failedTests + 1 }

/-- `scunit_suite_run` (src/src/suite.c:184-286), abstracting each registered
test by the result it leaves in the (freshly reset) context: the summary starts
zeroed and the loop tallies the result of the test at index
`registeredTests - 1 - i` on iteration `i`. -/
def scunit_suite_run (tests : List SCUnitResult) : SCUnitSummary :=
  ((suiteRunTestOrder tests.length).map
    (fun j => tests.getD j SCUnitResult.pass)).foldl tallyResult ⟨0, 0, 0⟩

/-- The three `summary.xxx += suiteSummary.xxx` updates of
`scunit_executeSuites` (src/src/scunit.c:339-341). -/
def addSummary (summary suiteSummary : SCUnitSummary) : SCUnitSummary :=
  { passedTests := summary.passedTests + suiteSummary.passedTests
    skippedTests := summary.skippedTests + suiteSummary.skippedTests
    failedTests := summary.failedTests + suiteSummary.failedTests }

/-- `scunit_executeSuites` (src/src/scunit.c:259-342) under sequential order,
abstracting each suite by the list of results of its tests: runs the suites in
the `executeSuitesOrder` index order and aggregates the per-suite summaries
into the run-level summary. -/
def scunit_executeSuites (suites : List (List SCUnitResult)) : SCUnitSummary :=
  ((executeSuitesOrder suites.length).map (fun j => suites.getD j [])).foldl
    (fun acc s => addSummary acc (scunit_suite_run s)) ⟨0, 0, 0⟩

/-- `GROWTH_FACTOR` (src/src/suite.c:96): factor used for resizing the test
array. -/
def GROWTH_FACTOR : Nat := 2

/-- Capacity bookkeeping of a suite (src/src/suite.c:85-92) together with a
count of how many times the test array has grown. -/
structure SCUnitSuiteState where
  capacity : Nat
  registeredTests : Nat
  growths : Nat
  deriving DecidableEq, Repr

/-- The capacity evolution of `scunit_suite_registerTest`
(src/src/suite.c:163-181): when the registered count has reached the capacity,
the capacity becomes `capacity * GROWTH_FACTOR + 1` ("add one for the edge case
of the capacity being zero"), then the test is appended. -/
def scunit_suite_registerTest (suite : SCUnitSuiteState) : SCUnitSuiteState :=
  if suite.registeredTests ≥ suite.capacity then
    { capacity := suite.capacity * GROWTH_FACTOR + 1
      registeredTests := suite.registeredTests + 1
      growths := suite.growths + 1 }
  else
    { suite with registeredTests := suite.registeredTests + 1 }

/-- Registering `m` tests into a fresh suite (`SCUNIT_CALLOC` zeroes the
capacity and count, src/src/suite.c:102). -/
def registerTests : Nat → SCUnitSuiteState
  | 0 => ⟨0, 0, 0⟩
  | m + 1 => scunit_suite_registerTest (registerTests m)

/-- The null byte terminating C strings. -/
def nulChar : Char := Char.ofNat 0

/-- `SCUnitContext` (src/src/context.c:19-37): the result, the size of the
message buffer and the message buffer cells themselves. -/
structure SCUnitContext where
  result : SCUnitResult
  size : Int
  message : List Char
  deriving DecidableEq, Repr

/-- `scunit_context_reset` (src/src/context.c:67-74): sets the result to
`SCUNIT_RESULT_PASS` and writes a null byte into `message[0]`. -/
def scunit_context_reset (context : SCUnitContext) : SCUnitContext :=
  { context with result := SCUnitResult.pass, message := context.message.set 0 nulChar }

/-- `scunit_context_getResult` (src/src/context.c:76-82). -/
def scunit_context_getResult (context : SCUnitContext) : SCUnitResult :=
  context.result

/-- `scunit_context_getMessage` (src/src/context.c:95-101): the C caller reads
the returned pointer as a null-terminated string, so the observable message is
the prefix of the buffer before the first null byte. -/
def scunit_context_getMessage (context : SCUnitContext) : List Char :=
  context.message.takeWhile (fun c => c != nulChar)

/-- The error codes of the buffer writer (src/unnamed/part_007). -/
inductive SCUnitError where
  | noError
  | argumentOutOfRange
  | outOfMemory
  | writingBufferFailed
  deriving DecidableEq, Repr

/-- `INITIAL_BUFFER_SIZE` (src/unnamed/part_007): 128 bytes. -/
def INITIAL_BUFFER_SIZE : Int := 128

/-- Stand-in byte for the indeterminate content of freshly (re)allocated
memory. -/
def junkChar : Char := 'U'

/-- A buffer/size pair as managed by the writer functions: `buf = none` models
a null `*buffer` pointer, `size` is the reported `*size` (an `int64_t`). -/
structure SCUnitBuffer where
  buf : Option (List Char)
  size : Int
  deriving DecidableEq, Repr

/-- The doubling loop of `ensureSize` (src/unnamed/part_007:533-536):
`while (newSize < requiredSize) newSize *= GROWTH_FACTOR`, with enough fuel for
every nonnegative starting size. -/
def growSizeFuel : Nat → Int → Int → Int
  | 0, newSize, _ => newSize
  | f + 1, newSize, required =>
    if newSize < required then growSizeFuel f (newSize * 2) required else newSize

/-- The new size computed by `ensureSize` when it must grow:
`newSize = (*size == 0) ? 1 : *size` doubled until at least `requiredSize`. -/
def growSize (size required : Int) : Int :=
  growSizeFuel required.toNat (if size = 0 then 1 else size) required

/-- The content of a buffer after a successful `SCUNIT_REALLOC` to `newSize`
bytes: the old bytes are preserved and any newly acquired tail bytes are
indeterminate. -/
def reallocContent (old : List Char) (newSize : Int) : List Char :=
  old.take newSize.toNat ++ List.replicate (newSize.toNat - old.length) junkChar

/-- `ensureSize` (src/unnamed/part_007:522-546): validates the buffer/size
pair, and if the current size is below `requiredSize` doubles it and
reallocates; `allocOk` is the outcome of the single `SCUNIT_REALLOC` attempt.
On a failed reallocation both the buffer and the size keep their previous
values. -/
def ensureSize (allocOk : Bool) (st : SCUnitBuffer) (requiredSize : Int) :
    SCUnitBuffer × SCUnitError :=
  if st.size < 0 ∨ requiredSize < 0 ∨ ¬((st.buf = none) ↔ (st.size = 0)) then
    (st, SCUnitError.argumentOutOfRange)
  else if st.size < requiredSize then
    if allocOk then
      ({ buf := some (reallocContent (st.buf.getD []) (growSize st.size requiredSize)),
         size := growSize st.size requiredSize }, SCUnitError.noError)
    else (st, SCUnitError.outOfMemory)
  else (st, SCUnitError.noError)

/-- Writing `xs` into a buffer at byte offset `offset` (the effect of a
successful, untruncated `vsnprintf(*buffer + offset, ...)`). -/
def writeAt (arr : List Char) (offset : Nat) (xs : List Char) : List Char :=
  arr.take offset ++ xs ++ arr.drop (offset + xs.length)

/-- `strnlen(*buffer, *size)`: the length of the prefix before the first null
byte, capped at `*size`. -/
def strnlen (arr : List Char) (n : Int) : Nat :=
  ((arr.take n.toNat).takeWhile (fun c => c != nulChar)).length

/-- The initial-allocation block shared verbatim by the four writer functions
(e.g. src/unnamed/part_007:552-561): when `*buffer` is null, allocate
`INITIAL_BUFFER_SIZE` bytes and null-terminate them by setting byte 0. -/
def initialAllocate (allocOk : Bool) (st : SCUnitBuffer) : SCUnitBuffer × SCUnitError :=
  if st.buf = none then
    let es := ensureSize allocOk st INITIAL_BUFFER_SIZE
    if es.2 = SCUnitError.noError then
      ({ es.1 with buf := some ((es.1.buf.getD []).set 0 nulChar) }, SCUnitError.noError)
    else es
  else (st, SCUnitError.noError)

/-- The overwrite phase of `scunit_vrsnprintf` (src/unnamed/part_007:562-576):
grow to `length + 1` bytes and write the formatted text (with its terminator)
at offset 0; `alloc1` is the outcome of this phase's potential reallocation and
`writeOk` the outcome of the final `vsnprintf`. -/
def overwriteBody (alloc1 writeOk : Bool) (st1 : SCUnitBuffer)
    (text : List Char) : SCUnitBuffer × SCUnitError :=
  let es := ensureSize alloc1 st1 ((text.length : Int) + 1)
  if es.2 = SCUnitError.noError then
    if writeOk then
      ({ es.1 with buf := some (writeAt (es.1.buf.getD []) 0 (text ++ [nulChar])) },
        SCUnitError.noError)
    else (es.1, SCUnitError.writingBufferFailed)
  else es

/-- The append phase of `scunit_vrasnprintf` (src/unnamed/part_007:693-708):
compute the offset with `strnlen`, grow to `offset + length + 1` bytes and
write the formatted text (with its terminator) at the offset. -/
def appendBody (alloc1 writeOk : Bool) (st1 : SCUnitBuffer)
    (text : List Char) : SCUnitBuffer × SCUnitError :=
  let offset := strnlen (st1.buf.getD []) st1.size
  let es := ensureSize alloc1 st1 ((offset : Int) + text.length + 1)
  if es.2 = SCUnitError.noError then
    if writeOk then
      ({ es.1 with buf := some (writeAt (es.1.buf.getD []) offset (text ++ [nulChar])) },
        SCUnitError.noError)
    else (es.1, SCUnitError.writingBufferFailed)
  else es

/-- `scunit_vrsnprintf` (src/unnamed/part_007:548-577): the overwriting
formatted write.  `alloc0` and `alloc1` are the outcomes of the two potential
allocations of the call (initial allocation, growth for the text), `fmtOk` the
outcome of the dry-run `vsnprintf` that measures the formatted length,
`writeOk` the outcome of the final writing `vsnprintf`, and `text` the bytes
the format expansion produces. -/
def scunit_vrsnprintf (alloc0 alloc1 fmtOk writeOk : Bool)
    (st : SCUnitBuffer) (text : List Char) : SCUnitBuffer × SCUnitError :=
  if st.size < 0 ∨ ¬((st.buf = none) ↔ (st.size = 0)) then
    (st, SCUnitError.argumentOutOfRange)
  else
    let step1 := initialAllocate alloc0 st
    if step1.2 = SCUnitError.noError then
      if fmtOk then overwriteBody alloc1 writeOk step1.1 text
      else (step1.1, SCUnitError.writingBufferFailed)
    else step1

/-- `scunit_vrasnprintf` (src/unnamed/part_007:679-709): the appending
formatted write, with the same parameters as `scunit_vrsnprintf`. -/
def scunit_vrasnprintf (alloc0 alloc1 fmtOk writeOk : Bool)
    (st : SCUnitBuffer) (text : List Char) : SCUnitBuffer × SCUnitError :=
  if st.size < 0 ∨ ¬((st.buf = none) ↔ (st.size = 0)) then
    (st, SCUnitError.argumentOutOfRange)
  else
    let step1 := initialAllocate alloc0 st
    if step1.2 = SCUnitError.noError then
      if fmtOk then appendBody alloc1 writeOk step1.1 text
      else (step1.1, SCUnitError.writingBufferFailed)
    else step1

/-- Well-formedness of a buffer/size pair as maintained by the writer: the
size is nonnegative, the pointer is null exactly when the size is zero, and
the allocated cell count matches the reported size. -/
def bufWF (st : SCUnitBuffer) : Prop :=
  0 ≤ st.size ∧ ((st.buf = none) ↔ st.size = 0) ∧
    ∀ arr, st.buf = some arr → arr.length = st.size.toNat

/-- The null-terminated string content of a buffer, as a C caller reads it:
the bytes before the first null byte. -/
def readCString (st : SCUnitBuffer) : List Char :=
  (st.buf.getD []).takeWhile (fun c => c != nulChar)

lemma nextOutput_lt (r : SCUnitRandom) : nextOutput r < W64 :=
  Nat.mod_lt _ (by norm_num [W64])

lemma nextDouble_nonneg (r : SCUnitRandom) : 0 ≤ nextDouble r := by
  unfold nextDouble
  positivity

lemma nextDouble_lt_one (r : SCUnitRandom) : nextDouble r < 1 := by
  unfold nextDouble
  rw [Nat.shiftLeft_eq, one_mul]
  have hk : nextOutput r >>> 11 < 2 ^ 53 := by
    rw [Nat.shiftRight_eq_div_pow]
    apply Nat.div_lt_of_lt_mul
    have h := nextOutput_lt r
    calc nextOutput r < W64 := h
      _ = 2 ^ 11 * 2 ^ 53 := by norm_num [W64]
  push_cast
  rw [mul_one_div, div_lt_one (by positivity)]
  exact_mod_cast hk

lemma floor_mul_width_lt (u : ℚ) (hu0 : 0 ≤ u) (hu1 : u < 1) (w : ℕ) (hw : 1 ≤ w) :
    ⌊u * (w : ℚ)⌋₊ < w := by
  rw [Nat.floor_lt (by positivity)]
  calc u * (w : ℚ) < 1 * (w : ℚ) := by
        apply mul_lt_mul_of_pos_right hu1
        exact_mod_cast hw
    _ = (w : ℚ) := one_mul _

lemma unsigned_draw_range (u : ℚ) (hu0 : 0 ≤ u) (hu1 : u < 1) (M lo hi : ℕ)
    (hlohi : lo ≤ hi) (hhi : hi < M) :
    lo ≤ (lo + ⌊u * (((hi - lo + 1) % M : ℕ) : ℚ)⌋₊) % M ∧
      (lo + ⌊u * (((hi - lo + 1) % M : ℕ) : ℚ)⌋₊) % M ≤ hi := by
  rcases Nat.lt_or_ge (hi - lo + 1) M with hcase | hcase
  · rw [Nat.mod_eq_of_lt hcase]
    have hj : ⌊u * ((hi - lo + 1 : ℕ) : ℚ)⌋₊ < hi - lo + 1 :=
      floor_mul_width_lt u hu0 hu1 _ (by omega)
    have hlt : lo + ⌊u * ((hi - lo + 1 : ℕ) : ℚ)⌋₊ < M := by omega
    rw [Nat.mod_eq_of_lt hlt]
    omega
  · have hM : (hi - lo + 1) = M := by omega
    rw [hM, Nat.mod_self]
    have hz : ⌊u * ((0 : ℕ) : ℚ)⌋₊ = 0 := by
      norm_num
    rw [hz, Nat.add_zero, Nat.mod_eq_of_lt (by omega)]
    exact ⟨le_rfl, hlohi⟩

lemma signed_draw_range (u : ℚ) (hu0 : 0 ≤ u) (hu1 : u < 1) (lo hi : ℤ)
    (hlohi : lo ≤ hi) :
    lo ≤ lo + truncQ (u * ((hi - lo + 1 : ℤ) : ℚ)) ∧
      lo + truncQ (u * ((hi - lo + 1 : ℤ) : ℚ)) ≤ hi := by
  have hw : (1 : ℤ) ≤ hi - lo + 1 := by omega
  have hwq : (0 : ℚ) < ((hi - lo + 1 : ℤ) : ℚ) := by exact_mod_cast hw
  have hq0 : 0 ≤ u * ((hi - lo + 1 : ℤ) : ℚ) := by positivity
  rw [truncQ, if_pos hq0]
  have hj0 : 0 ≤ ⌊u * ((hi - lo + 1 : ℤ) : ℚ)⌋ := Int.floor_nonneg.mpr hq0
  have hj : ⌊u * ((hi - lo + 1 : ℤ) : ℚ)⌋ < hi - lo + 1 := by
    rw [Int.floor_lt]
    calc u * ((hi - lo + 1 : ℤ) : ℚ) < 1 * ((hi - lo + 1 : ℤ) : ℚ) :=
          mul_lt_mul_of_pos_right hu1 hwq
      _ = ((hi - lo + 1 : ℤ) : ℚ) := one_mul _
  omega

lemma rounded_double_draw_ge (u : ℚ) (hu0 : 0 ≤ u) (fl : ℚ → ℚ)
    (hmono : ∀ x y : ℚ, x ≤ y → fl x ≤ fl y) (h0 : fl 0 = 0)
    (lo hi : ℚ) (hlo : fl lo = lo) (hle : lo ≤ hi) :
    lo ≤ fl (lo + fl (u * fl (hi - lo))) := by
  have h1 : 0 ≤ fl (hi - lo) := by
    rw [← h0]
    exact hmono 0 (hi - lo) (by linarith)
  have h2 : 0 ≤ fl (u * fl (hi - lo)) := by
    rw [← h0]
    exact hmono 0 (u * fl (hi - lo)) (mul_nonneg hu0 h1)
  calc lo = fl lo := hlo.symm
    _ ≤ fl (lo + fl (u * fl (hi - lo))) := hmono _ _ (by linarith)

lemma rounded_float_draw_ge (u : ℚ) (hu0 : 0 ≤ u) (flF flD : ℚ → ℚ)
    (hFmono : ∀ x y : ℚ, x ≤ y → flF x ≤ flF y) (hF0 : flF 0 = 0)
    (hDmono : ∀ x y : ℚ, x ≤ y → flD x ≤ flD y) (hD0 : flD 0 = 0)
    (lo hi : ℚ) (hlo : flF lo = lo) (hle : lo ≤ hi) :
    lo ≤ flF (lo + flF (flD (u * flF (hi - lo)))) := by
  have h1 : 0 ≤ flF (hi - lo) := by
    rw [← hF0]
    exact hFmono 0 (hi - lo) (by linarith)
  have h2 : 0 ≤ flD (u * flF (hi - lo)) := by
    rw [← hD0]
    exact hDmono 0 (u * flF (hi - lo)) (mul_nonneg hu0 h1)
  have h3 : 0 ≤ flF (flD (u * flF (hi - lo))) := by
    rw [← hF0]
    exact hFmono 0 (flD (u * flF (hi - lo))) h2
  calc lo = flF lo := hlo.symm
    _ ≤ flF (lo + flF (flD (u * flF (hi - lo)))) := hFmono _ _ (by linarith)

lemma roundDemo_monotone : ∀ x y : ℚ, x ≤ y → roundDemo x ≤ roundDemo y := by
  intro x y hxy
  unfold roundDemo
  by_cases h1 : 1 + 1 / 2 ^ 53 < x ∧ x ≤ 1 + 1 / 2 ^ 52
  · rw [if_pos h1]
    by_cases h2 : 1 + 1 / 2 ^ 53 < y ∧ y ≤ 1 + 1 / 2 ^ 52
    · rw [if_pos h2]
    · rw [if_neg h2]
      push_neg at h2
      have h3 : 1 + 1 / 2 ^ 53 < y := lt_of_lt_of_le h1.1 hxy
      have h4 := h2 h3
      linarith
  · rw [if_neg h1]
    by_cases h2 : 1 + 1 / 2 ^ 53 < y ∧ y ≤ 1 + 1 / 2 ^ 52
    · rw [if_pos h2]
      linarith [h2.2]
    · rw [if_neg h2]
      exact hxy

/-- C2: two PRNG instances both seeded with the same 64-bit seed, one via
construction with a seed (`scunit_random_withSeed`) and one via
`scunit_random_setSeed`, produce identical sequences of `N` draws for every
`N`, whatever the prior states of the two instances were. -/
theorem prng_seed_determinism (r1 r2 : SCUnitRandom) (s N : Nat) :
    draws (scunit_random_withSeed r1 s) N = draws (scunit_random_setSeed r2 s) N := rfl

/-- C3: the PRNG is bit-exact to the specified algorithms: the seed expansion
of `scunit_random_setSeed` equals the repeated-SplitMix64 expansion the spec
describes, and each draw's output word, state update and `[0,1)` double mapping
equal the spec's `rotate_left(state[1] * 5, 7) * 9`, the quoted xor-shift
update sequence, and `(output >> 11) * 2^-53`. -/
theorem prng_bit_exact_spec (r : SCUnitRandom) (s : Nat) :
    scunit_random_setSeed r s = { specSeedExpansion s with seed := s } ∧
    nextOutput r = specDrawOutput r ∧
    nextState r = specDrawUpdate r ∧
    nextDouble r = specDrawDouble r := by
  refine ⟨rfl, rfl, rfl, ?_⟩
  unfold nextDouble specDrawDouble
  have h1 : nextOutput r = specDrawOutput r := rfl
  rw [h1]
  congr 1
  rw [Nat.shiftLeft_eq, one_mul, zpow_neg]
  push_cast
  norm_num

/-- C10: for every PRNG state, the inclusive-range 64-bit draw with `min = 0`
and `max = 2^64 - 1` returns 0: the width `max - min + 1` wraps to 0 modulo
2^64, so the draw collapses to `min`. -/
theorem uint64_full_range_collapses (r : SCUnitRandom) :
    scunit_random_uint64 r 0 (2 ^ 64 - 1) = 0 := by
  unfold scunit_random_uint64
  have h : (2 ^ 64 - 1 - 0 + 1) % W64 = 0 := by
    unfold W64
    norm_num
  rw [h]
  norm_num

set_option maxRecDepth 16384 in
/-- C4 (amended): for every PRNG state, an unsigned integer range draw with
`min ≤ max` satisfies `min ≤ r ≤ max` — including `min == max` and the wrapped
full-range width, where the draw collapses to `min`; a signed integer range
draw satisfies `min ≤ r ≤ max` whenever `min ≤ max` and the inputs are free of
signed-overflow undefined behavior; a float/double draw returns exactly `min`
when `min == max` (every intermediate value is then 0 or `min`, so the claimed
strict upper bound is unsatisfiable there) and never falls below `min` under
any rounding of its subtraction, multiplication and addition that is monotone
and fixes 0 and `min`; and the documented strict upper bound `r < max` for
`min < max` is not guaranteed: a monotone rounding that agrees with IEEE
round-to-nearest at every evaluated point makes the double draw return exactly
`max` (at `min = 1`, `max = 1 + 2^-52`, with the draw `u = 1/2 + 2^-53`). -/
theorem random_range_bounds (r : SCUnitRandom) :
    (∀ lo hi : ℕ, lo ≤ hi → hi < W32 →
      lo ≤ scunit_random_uint32 r lo hi ∧ scunit_random_uint32 r lo hi ≤ hi) ∧
    (∀ lo hi : ℕ, lo ≤ hi → hi < W64 →
      lo ≤ scunit_random_uint64 r lo hi ∧ scunit_random_uint64 r lo hi ≤ hi) ∧
    (∀ lo hi : ℤ, -(2 ^ 31) ≤ lo → lo ≤ hi → hi < 2 ^ 31 → hi - lo + 1 < 2 ^ 31 →
      lo ≤ scunit_random_int32 r lo hi ∧ scunit_random_int32 r lo hi ≤ hi) ∧
    (∀ lo hi : ℤ, -(2 ^ 63) ≤ lo → lo ≤ hi → hi < 2 ^ 63 → hi - lo + 1 < 2 ^ 63 →
      lo ≤ scunit_random_int64 r lo hi ∧ scunit_random_int64 r lo hi ≤ hi) ∧
    (∀ flF flD : ℚ → ℚ, (∀ x y : ℚ, x ≤ y → flF x ≤ flF y) → flF 0 = 0 →
      (∀ x y : ℚ, x ≤ y → flD x ≤ flD y) → flD 0 = 0 →
      ∀ lo hi : ℚ, flF lo = lo → lo ≤ hi →
        lo ≤ scunit_random_float flF flD r lo hi) ∧
    (∀ flF flD : ℚ → ℚ, flF 0 = 0 → flD 0 = 0 →
      ∀ m : ℚ, flF m = m → scunit_random_float flF flD r m m = m) ∧
    (∀ fl : ℚ → ℚ, (∀ x y : ℚ, x ≤ y → fl x ≤ fl y) → fl 0 = 0 →
      ∀ lo hi : ℚ, fl lo = lo → lo ≤ hi → lo ≤ scunit_random_double fl r lo hi) ∧
    (∀ fl : ℚ → ℚ, fl 0 = 0 → ∀ m : ℚ, fl m = m →
      scunit_random_double fl r m m = m) ∧
    (∃ fl : ℚ → ℚ, ∃ st : SCUnitRandom, ∃ lo hi : ℚ,
      (∀ x y : ℚ, x ≤ y → fl x ≤ fl y) ∧ fl 0 = 0 ∧ fl lo = lo ∧ fl hi = hi ∧
        lo < hi ∧ scunit_random_double fl st lo hi = hi) := by
  have hu0 := nextDouble_nonneg r
  have hu1 := nextDouble_lt_one r
  refine ⟨?_, ?_, ?_, ?_, ?_, ?_, ?_, ?_, ?_⟩
  · intro lo hi h1 h2
    exact unsigned_draw_range (nextDouble r) hu0 hu1 W32 lo hi h1 h2
  · intro lo hi h1 h2
    exact unsigned_draw_range (nextDouble r) hu0 hu1 W64 lo hi h1 h2
  · intro lo hi _ h1 _ _
    exact signed_draw_range (nextDouble r) hu0 hu1 lo hi h1
  · intro lo hi _ h1 _ _
    exact signed_draw_range (nextDouble r) hu0 hu1 lo hi h1
  · intro flF flD hFm hF0 hDm hD0 lo hi hlo hle
    exact rounded_float_draw_ge (nextDouble r) hu0 flF flD hFm hF0 hDm hD0 lo hi hlo hle
  · intro flF flD hF0 hD0 m hm
    simp [scunit_random_float, sub_self, hF0, hD0, hm]
  · intro fl hm h0 lo hi hlo hle
    exact rounded_double_draw_ge (nextDouble r) hu0 fl hm h0 lo hi hlo hle
  · intro fl h0 m hm
    simp [scunit_random_double, sub_self, h0, hm]
  · refine ⟨roundDemo, ⟨0, 0, 3697355214079457872, 0, 0⟩, 1, 1 + 1 / 2 ^ 52,
      roundDemo_monotone, ?_, ?_, ?_, by norm_num, ?_⟩
    · unfold roundDemo
      rw [if_neg (by norm_num)]
    · unfold roundDemo
      rw [if_neg (by norm_num)]
    · unfold roundDemo
      rw [if_pos (by norm_num)]
    · have hk : nextOutput ⟨0, 0, 3697355214079457872, 0, 0⟩ >>> 11 = 2 ^ 52 + 1 := by
        decide
      have hu : nextDouble ⟨0, 0, 3697355214079457872, 0, 0⟩
          = (2 ^ 52 + 1) / 2 ^ 53 := by
        unfold nextDouble
        rw [hk, Nat.shiftLeft_eq, one_mul]
        push_cast
        norm_num
      unfold scunit_random_double
      rw [hu]
      have e1 : roundDemo (1 + 1 / 2 ^ 52 - 1) = 1 / 2 ^ 52 := by
        unfold roundDemo
        rw [if_neg (by norm_num)]
        norm_num
      rw [e1]
      have e2 : roundDemo ((2 ^ 52 + 1 : ℚ) / 2 ^ 53 * (1 / 2 ^ 52))
          = (2 ^ 52 + 1) / 2 ^ 105 := by
        unfold roundDemo
        rw [if_neg (by norm_num)]
        norm_num
      rw [e2]
      have e3 : roundDemo (1 + (2 ^ 52 + 1 : ℚ) / 2 ^ 105) = 1 + 1 / 2 ^ 52 := by
        unfold roundDemo
        rw [if_pos (by norm_num)]
      rw [e3]

/-- C4 (counterexample): the claim demands `min ≤ r < max` for float/double
draws "including the degenerate case min == max", but with `min = max = 0` the
double draw returns exactly 0 — every intermediate IEEE value is 0, which is
exactly representable, so the identity rounding used here coincides with the
real arithmetic — and `0 < 0` is false, so no draw can satisfy the claimed
strict upper bound. -/
theorem random_double_degenerate_counterexample :
    scunit_random_double (fun x => x) ⟨0, 0, 0, 0, 0⟩ 0 0 = 0 ∧
      ¬ scunit_random_double (fun x => x) ⟨0, 0, 0, 0, 0⟩ 0 0 < 0 := by
  have h : scunit_random_double (fun x => x) ⟨0, 0, 0, 0, 0⟩ 0 0 = 0 := by
    simp [scunit_random_double]
  exact ⟨h, by rw [h]; exact lt_irrefl 0⟩

/-- C4 (witness): the amended range theorem instantiated at the all-zero PRNG
state on concrete ranges for each of the six draw functions, with the identity
rounding (monotone and fixing every value) for the float/double draws. -/
theorem random_range_bounds_witness :
    (3 ≤ scunit_random_uint32 ⟨0, 0, 0, 0, 0⟩ 3 7 ∧
      scunit_random_uint32 ⟨0, 0, 0, 0, 0⟩ 3 7 ≤ 7) ∧
    (5 ≤ scunit_random_uint64 ⟨0, 0, 0, 0, 0⟩ 5 5 ∧
      scunit_random_uint64 ⟨0, 0, 0, 0, 0⟩ 5 5 ≤ 5) ∧
    ((-4 : ℤ) ≤ scunit_random_int32 ⟨0, 0, 0, 0, 0⟩ (-4) 4 ∧
      scunit_random_int32 ⟨0, 0, 0, 0, 0⟩ (-4) 4 ≤ 4) ∧
    ((-4 : ℤ) ≤ scunit_random_int64 ⟨0, 0, 0, 0, 0⟩ (-4) 4 ∧
      scunit_random_int64 ⟨0, 0, 0, 0, 0⟩ (-4) 4 ≤ 4) ∧
    (0 : ℚ) ≤ scunit_random_float (fun x => x) (fun x => x) ⟨0, 0, 0, 0, 0⟩ 0 1 ∧
    scunit_random_float (fun x => x) (fun x => x) ⟨0, 0, 0, 0, 0⟩ 2 2 = 2 ∧
    (0 : ℚ) ≤ scunit_random_double (fun x => x) ⟨0, 0, 0, 0, 0⟩ 0 1 ∧
    scunit_random_double (fun x => x) ⟨0, 0, 0, 0, 0⟩ 2 2 = 2 := by
  have h := random_range_bounds ⟨0, 0, 0, 0, 0⟩
  exact ⟨h.1 3 7 (by norm_num) (by norm_num [W32]),
    h.2.1 5 5 le_rfl (by norm_num [W64]),
    h.2.2.1 (-4) 4 (by norm_num) (by norm_num) (by norm_num) (by norm_num),
    h.2.2.2.1 (-4) 4 (by norm_num) (by norm_num) (by norm_num) (by norm_num),
    h.2.2.2.2.1 (fun x => x) (fun x => x) (fun _ _ hxy => hxy) rfl
      (fun _ _ hxy => hxy) rfl 0 1 rfl (by norm_num),
    h.2.2.2.2.2.1 (fun x => x) (fun x => x) rfl rfl 2 rfl,
    h.2.2.2.2.2.2.1 (fun x => x) (fun _ _ hxy => hxy) rfl 0 1 rfl (by norm_num),
    h.2.2.2.2.2.2.2.1 (fun x => x) rfl 2 rfl⟩

lemma range_map_rev (n : Nat) :
    (List.range n).map (fun i => n - 1 - i) = (List.range n).reverse := by
  conv_rhs => rw [List.range_eq_range', List.reverse_range']
  simp

lemma map_getD_range {α : Type} (l : List α) (d : α) :
    (List.range l.length).map (fun j => l.getD j d) = l := by
  induction l with
  | nil => rfl
  | cons a t ih =>
    rw [List.length_cons, List.range_succ_eq_map, List.map_cons, List.map_map]
    have h : ((fun j => (a :: t).getD j d) ∘ Nat.succ) = fun j => t.getD j d := rfl
    rw [h, ih]
    rfl

lemma order_map_getD_rev {α : Type} (l : List α) (d : α) :
    ((List.range l.length).map (fun i => l.length - 1 - i)).map (fun j => l.getD j d)
      = l.reverse := by
  rw [range_map_rev, List.map_reverse, map_getD_range]

lemma tally_total (l : List SCUnitResult) (acc : SCUnitSummary) :
    (l.foldl tallyResult acc).passedTests + (l.foldl tallyResult acc).skippedTests +
        (l.foldl tallyResult acc).failedTests
      = acc.passedTests + acc.skippedTests + acc.failedTests + l.length := by
  induction l generalizing acc with
  | nil => simp
  | cons a t ih =>
    rw [List.foldl_cons, ih]
    cases a <;> simp [tallyResult] <;> omega

lemma fold_addSummary (ls : List (List SCUnitResult)) (acc : SCUnitSummary) :
    (ls.foldl (fun a s => addSummary a (scunit_suite_run s)) acc).passedTests
        = acc.passedTests + (ls.map (fun s => (scunit_suite_run s).passedTests)).sum ∧
      (ls.foldl (fun a s => addSummary a (scunit_suite_run s)) acc).skippedTests
        = acc.skippedTests + (ls.map (fun s => (scunit_suite_run s).skippedTests)).sum ∧
      (ls.foldl (fun a s => addSummary a (scunit_suite_run s)) acc).failedTests
        = acc.failedTests + (ls.map (fun s => (scunit_suite_run s).failedTests)).sum := by
  induction ls generalizing acc with
  | nil => simp
  | cons a t ih =>
    rw [List.foldl_cons, List.map_cons, List.map_cons, List.map_cons]
    obtain ⟨h1, h2, h3⟩ := ih (addSummary acc (scunit_suite_run a))
    rw [h1, h2, h3]
    simp [addSummary]
    omega

/-- C1 (counterexample): with two registered tests (indices 0 and 1), the
sequential loop executes index 1 first, and likewise for two registered suites,
so the i-th registered item is not the i-th executed (`List.range 2 = [0, 1]`
is the registration order). -/
theorem sequential_not_registration_order :
    suiteRunTestOrder 2 = [1, 0] ∧ executeSuitesOrder 2 = [1, 0] ∧
      ([1, 0] : List Nat) ≠ List.range 2 := by
  refine ⟨?_, ?_, by decide⟩ <;> rfl

/-- C1 (amended): under `Sequential` order, for every suite the scheduler runs
the suite's tests in reverse registration order, and runs the registered suites
in reverse registration order: the execution index sequence is exactly the
reverse of the registration index sequence. -/
theorem sequential_is_reverse_registration (n : Nat) :
    suiteRunTestOrder n = (List.range n).reverse ∧
      executeSuitesOrder n = (List.range n).reverse := by
  unfold suiteRunTestOrder executeSuitesOrder
  exact ⟨range_map_rev n, range_map_rev n⟩

/-- C5: for every suite run, `passed + skipped + failed` equals the number of
registered tests, and each counter of the run-level summary produced by
`scunit_executeSuites` equals the sum of the corresponding per-suite
counters. -/
theorem summary_counts_correct :
    (∀ tests : List SCUnitResult,
      (scunit_suite_run tests).passedTests + (scunit_suite_run tests).skippedTests +
          (scunit_suite_run tests).failedTests = tests.length) ∧
    (∀ suites : List (List SCUnitResult),
      (scunit_executeSuites suites).passedTests
          = (suites.map (fun s => (scunit_suite_run s).passedTests)).sum ∧
        (scunit_executeSuites suites).skippedTests
          = (suites.map (fun s => (scunit_suite_run s).skippedTests)).sum ∧
        (scunit_executeSuites suites).failedTests
          = (suites.map (fun s => (scunit_suite_run s).failedTests)).sum) := by
  constructor
  · intro tests
    unfold scunit_suite_run suiteRunTestOrder
    rw [order_map_getD_rev tests SCUnitResult.pass, tally_total]
    simp
  · intro suites
    unfold scunit_executeSuites executeSuitesOrder
    rw [order_map_getD_rev suites []]
    obtain ⟨h1, h2, h3⟩ := fold_addSummary suites.reverse ⟨0, 0, 0⟩
    rw [h1, h2, h3]
    simp [List.map_reverse, List.sum_reverse]

/-- C8: after `scunit_context_reset`, the result accessor returns
`SCUNIT_RESULT_PASS` and the message accessor returns the empty string,
whatever result and message content the context held before. -/
theorem context_reset_clears (context : SCUnitContext) :
    scunit_context_getResult (scunit_context_reset context) = SCUnitResult.pass ∧
      scunit_context_getMessage (scunit_context_reset context) = [] := by
  refine ⟨rfl, ?_⟩
  unfold scunit_context_getMessage scunit_context_reset
  cases context.message with
  | nil => rfl
  | cons a t => simp [List.set_cons_zero, List.takeWhile_cons]

/-- C9 (counterexample): registering two tests into a fresh suite triggers two
growths (capacity 0 → 1 → 3), so after the second growth the capacity is 3,
not `2^2 = 4` as the claim's `2^k` formula demands, and the step from 1 to 3 is
not a doubling. -/
theorem capacity_after_two_growths :
    registerTests 2 = ⟨3, 2, 2⟩ ∧
      (registerTests 2).capacity ≠ 2 ^ (registerTests 2).growths := by decide

/-- C9 (amended): the capacity of a suite's test collection starts at 1 when
the first test is registered and follows `capacity * 2 + 1` on each overflow,
so after the k-th growth the capacity is `2^k - 1`; registering `m` tests
always leaves exactly `m` registered. -/
theorem capacity_growth_invariant (m : Nat) :
    (registerTests m).capacity = 2 ^ (registerTests m).growths - 1 ∧
      (registerTests m).registeredTests = m := by
  induction m with
  | zero => exact ⟨rfl, rfl⟩
  | succ m ih =>
    obtain ⟨hc, hr⟩ := ih
    have hstep : registerTests (m + 1) = scunit_suite_registerTest (registerTests m) := rfl
    rw [hstep]
    unfold scunit_suite_registerTest
    have hp : 1 ≤ 2 ^ (registerTests m).growths := Nat.one_le_two_pow
    by_cases h : (registerTests m).registeredTests ≥ (registerTests m).capacity
    · rw [if_pos h]
      refine ⟨?_, by rw [hr]⟩
      show (registerTests m).capacity * GROWTH_FACTOR + 1
          = 2 ^ ((registerTests m).growths + 1) - 1
      rw [hc, pow_succ, GROWTH_FACTOR]
      omega
    · rw [if_neg h]
      exact ⟨hc, by rw [hr]⟩

lemma growSizeFuel_ge (f : Nat) : ∀ s r : Int, 1 ≤ s → r ≤ s * 2 ^ f → r ≤ growSizeFuel f s r := by
  induction f with
  | zero =>
    intro s r _ hr
    simpa using hr
  | succ f ih =>
    intro s r hs hr
    unfold growSizeFuel
    by_cases h : s < r
    · rw [if_pos h]
      apply ih (s * 2) r (by omega)
      calc r ≤ s * 2 ^ (f + 1) := hr
        _ = s * 2 * 2 ^ f := by ring
    · rw [if_neg h]
      omega

lemma growSizeFuel_ge_self (f : Nat) : ∀ s r : Int, 0 ≤ s → s ≤ growSizeFuel f s r := by
  induction f with
  | zero => intro s r _; exact le_rfl
  | succ f ih =>
    intro s r hs
    unfold growSizeFuel
    by_cases h : s < r
    · rw [if_pos h]
      have h2 := ih (s * 2) r (by omega)
      omega
    · rw [if_neg h]

lemma growSize_ge (size required : Int) (h : 0 ≤ size) :
    required ≤ growSize size required := by
  unfold growSize
  have h3 : (1 : Int) ≤ if size = 0 then 1 else size := by
    by_cases hz : size = 0
    · simp [hz]
    · rw [if_neg hz]
      omega
  apply growSizeFuel_ge _ _ _ h3
  have h1 : required ≤ (required.toNat : Int) := Int.self_le_toNat required
  have h2 : (required.toNat : Int) < 2 ^ required.toNat := by
    exact_mod_cast Nat.lt_two_pow required.toNat
  have hp : (0 : Int) ≤ 2 ^ required.toNat := by positivity
  nlinarith

lemma growSize_ge_self (size required : Int) (h : 0 ≤ size) :
    size ≤ growSize size required := by
  unfold growSize
  by_cases hz : size = 0
  · rw [if_pos hz]
    have h2 := growSizeFuel_ge_self required.toNat 1 required (by norm_num)
    omega
  · rw [if_neg hz]
    exact growSizeFuel_ge_self _ _ _ h

lemma ensureSize_ok (st : SCUnitBuffer) (req : Int) (hWF : bufWF st) (hreq : 0 ≤ req)
    (arr : List Char) (harr : st.buf = some arr) :
    ∃ pad : Nat,
      ensureSize true st req
          = (⟨some (arr ++ List.replicate pad junkChar), st.size + pad⟩, SCUnitError.noError) ∧
        req ≤ st.size + (pad : Int) := by
  obtain ⟨h0, hiff, hlenf⟩ := hWF
  have hlen : arr.length = st.size.toNat := hlenf arr harr
  have hcond : ¬(st.size < 0 ∨ req < 0 ∨ ¬((st.buf = none) ↔ (st.size = 0))) := by
    simp only [not_or, not_lt, not_not]
    exact ⟨h0, hreq, hiff⟩
  have hgetD : st.buf.getD [] = arr := by rw [harr]; rfl
  unfold ensureSize
  rw [if_neg hcond]
  by_cases hlt : st.size < req
  · rw [if_pos hlt, if_pos rfl]
    have hg1 : st.size ≤ growSize st.size req := growSize_ge_self _ _ h0
    have hg2 : req ≤ growSize st.size req := growSize_ge _ _ h0
    refine ⟨(growSize st.size req - st.size).toNat, ?_, by omega⟩
    rw [hgetD]
    unfold reallocContent
    rw [List.take_of_length_le (by omega)]
    have hpad : (growSize st.size req).toNat - arr.length
        = (growSize st.size req - st.size).toNat := by omega
    have hsz : st.size + (((growSize st.size req - st.size).toNat : Nat) : Int)
        = growSize st.size req := by omega
    rw [hpad, hsz]
  · rw [if_neg hlt]
    refine ⟨0, ?_, by omega⟩
    rw [List.replicate_zero, List.append_nil, ← harr]
    simp

lemma take_takeWhile_eq {α : Type} (p : α → Bool) (l : List α) :
    l.take (l.takeWhile p).length = l.takeWhile p := by
  induction l with
  | nil => rfl
  | cons a t ih =>
    by_cases h : p a = true
    · simp [List.takeWhile_cons, h, List.take_succ_cons, ih]
    · simp [List.takeWhile_cons, h]

lemma writeAt_length (arr xs : List Char) (offset : Nat)
    (h : offset + xs.length ≤ arr.length) :
    (writeAt arr offset xs).length = arr.length := by
  unfold writeAt
  simp only [List.length_append, List.length_take, List.length_drop]
  omega

set_option maxRecDepth 8192 in
lemma initialAllocate_ok (st : SCUnitBuffer) (hWF : bufWF st) :
    (initialAllocate true st).2 = SCUnitError.noError ∧
      bufWF (initialAllocate true st).1 ∧
      (∃ arr1, (initialAllocate true st).1.buf = some arr1) ∧
      readCString (initialAllocate true st).1 = readCString st := by
  obtain ⟨h0, hiff, hlenf⟩ := hWF
  by_cases hb : st.buf = none
  · have hsz : st.size = 0 := hiff.mp hb
    have hst : st = ⟨none, 0⟩ := by
      cases st
      simp_all
    rw [hst]
    have hcalc : initialAllocate true ⟨none, 0⟩
        = (⟨some (nulChar :: List.replicate 127 junkChar), 128⟩, SCUnitError.noError) := by
      decide
    rw [hcalc]
    refine ⟨rfl, ⟨by norm_num, by simp, ?_⟩, ⟨_, rfl⟩, by decide⟩
    intro arr1 h1
    have h2 : arr1 = nulChar :: List.replicate 127 junkChar := by
      simpa using h1.symm
    rw [h2]
    decide
  · unfold initialAllocate
    rw [if_neg hb]
    obtain ⟨arr, harr⟩ := Option.ne_none_iff_exists'.mp hb
    exact ⟨rfl, ⟨h0, hiff, hlenf⟩, ⟨arr, harr⟩, rfl⟩

lemma appendBody_ok (st1 : SCUnitBuffer) (text : List Char) (hWF : bufWF st1)
    (arr : List Char) (harr : st1.buf = some arr)
    (htext : ∀ c ∈ text, (c != nulChar) = true) :
    (appendBody true true st1 text).2 = SCUnitError.noError ∧
      bufWF (appendBody true true st1 text).1 ∧
      (∃ arr2, (appendBody true true st1 text).1.buf = some arr2) ∧
      readCString (appendBody true true st1 text).1 = readCString st1 ++ text := by
  obtain ⟨h0, hiff, hlenf⟩ := hWF
  have hlen : arr.length = st1.size.toNat := hlenf arr harr
  have hgetD : st1.buf.getD [] = arr := by rw [harr]; rfl
  have hoff : strnlen (st1.buf.getD []) st1.size
      = (arr.takeWhile (fun c => c != nulChar)).length := by
    rw [hgetD]
    unfold strnlen
    rw [List.take_of_length_le (le_of_eq hlen)]
  have hoffle : (arr.takeWhile (fun c => c != nulChar)).length ≤ arr.length := by
    conv_rhs => rw [← List.takeWhile_append_dropWhile (p := fun c => c != nulChar) (l := arr)]
    rw [List.length_append]
    omega
  obtain ⟨pad, hes, hreq⟩ :=
    ensureSize_ok st1
      (((arr.takeWhile (fun c => c != nulChar)).length : Int) + text.length + 1)
      ⟨h0, hiff, hlenf⟩ (by positivity) arr harr
  have hstep : appendBody true true st1 text
      = (⟨some (writeAt (arr ++ List.replicate pad junkChar)
            (arr.takeWhile (fun c => c != nulChar)).length (text ++ [nulChar])),
          st1.size + pad⟩, SCUnitError.noError) := by
    simp only [appendBody]
    rw [hoff, hes]
    rfl
  rw [hstep]
  have hC2len : (arr ++ List.replicate pad junkChar).length = st1.size.toNat + pad := by
    rw [List.length_append, List.length_replicate, hlen]
  have hfit : (arr.takeWhile (fun c => c != nulChar)).length + (text ++ [nulChar]).length
      ≤ (arr ++ List.replicate pad junkChar).length := by
    rw [hC2len, List.length_append, List.length_singleton]
    omega
  refine ⟨rfl, ⟨?_, ?_, ?_⟩, ⟨_, rfl⟩, ?_⟩
  · show (0 : Int) ≤ st1.size + (pad : Int)
    omega
  · constructor
    · intro h
      simp at h
    · intro h
      exfalso
      have h' : st1.size + (pad : Int) = 0 := h
      omega
  · intro arr2 h2
    have h3 : arr2 = writeAt (arr ++ List.replicate pad junkChar)
        (arr.takeWhile (fun c => c != nulChar)).length (text ++ [nulChar]) := by
      simpa using h2.symm
    show arr2.length = (st1.size + (pad : Int)).toNat
    rw [h3, writeAt_length _ _ _ hfit, hC2len]
    omega
  · show readCString ⟨some (writeAt (arr ++ List.replicate pad junkChar)
        (arr.takeWhile (fun c => c != nulChar)).length (text ++ [nulChar])), st1.size + pad⟩
      = readCString st1 ++ text
    unfold readCString writeAt
    rw [hgetD]
    simp only [Option.getD_some]
    have hsplit : arr ++ List.replicate pad junkChar
        = arr.takeWhile (fun c => c != nulChar)
            ++ (arr.dropWhile (fun c => c != nulChar) ++ List.replicate pad junkChar) := by
      rw [← List.append_assoc, List.takeWhile_append_dropWhile]
    rw [hsplit, List.take_left]
    have hA : ∀ a ∈ arr.takeWhile (fun c => c != nulChar),
        ((fun c => c != nulChar) a) = true := fun a ha =>
      List.mem_takeWhile_imp (p := fun c => c != nulChar) ha
    rw [List.append_assoc, List.takeWhile_append_of_pos hA, List.append_assoc]
    rw [List.takeWhile_append_of_pos htext]
    simp [List.takeWhile_cons]

lemma vrasnprintf_append_ok (st : SCUnitBuffer) (text : List Char) (hWF : bufWF st)
    (htext : ∀ c ∈ text, (c != nulChar) = true) :
    (scunit_vrasnprintf true true true true st text).2 = SCUnitError.noError ∧
      bufWF (scunit_vrasnprintf true true true true st text).1 ∧
      readCString (scunit_vrasnprintf true true true true st text).1
        = readCString st ++ text := by
  obtain ⟨h0, hiff, hlenf⟩ := hWF
  have hcond : ¬(st.size < 0 ∨ ¬((st.buf = none) ↔ (st.size = 0))) := by
    simp only [not_or, not_lt, not_not]
    exact ⟨h0, hiff⟩
  obtain ⟨he1, hwf1, ⟨arr1, harr1⟩, hread1⟩ := initialAllocate_ok st ⟨h0, hiff, hlenf⟩
  obtain ⟨he2, hwf2, hsome2, hread2⟩ :=
    appendBody_ok (initialAllocate true st).1 text hwf1 arr1 harr1 htext
  have hcall : scunit_vrasnprintf true true true true st text
      = appendBody true true (initialAllocate true st).1 text := by
    simp only [scunit_vrasnprintf]
    rw [if_neg hcond, if_pos he1, if_true]
  rw [hcall]
  exact ⟨he2, hwf2, by rw [hread2, hread1]⟩

/-- C7: with coloring not involved, appending `"A"` and then `"B"` by two
successful append calls yields byte-for-byte the same null-terminated buffer
content as one successful append call producing `"AB"` from the same initial
buffer state. -/
theorem append_twice_eq_append_once (st : SCUnitBuffer) (hWF : bufWF st) :
    (scunit_vrasnprintf true true true true st ['A']).2 = SCUnitError.noError ∧
      (scunit_vrasnprintf true true true true
        (scunit_vrasnprintf true true true true st ['A']).1 ['B']).2
          = SCUnitError.noError ∧
      (scunit_vrasnprintf true true true true st ['A', 'B']).2 = SCUnitError.noError ∧
      readCString (scunit_vrasnprintf true true true true
          (scunit_vrasnprintf true true true true st ['A']).1 ['B']).1
        = readCString (scunit_vrasnprintf true true true true st ['A', 'B']).1 := by
  obtain ⟨e1, w1, r1⟩ := vrasnprintf_append_ok st ['A'] hWF (by decide)
  obtain ⟨e2, w2, r2⟩ :=
    vrasnprintf_append_ok (scunit_vrasnprintf true true true true st ['A']).1 ['B'] w1
      (by decide)
  obtain ⟨e3, w3, r3⟩ := vrasnprintf_append_ok st ['A', 'B'] hWF (by decide)
  refine ⟨e1, e2, e3, ?_⟩
  rw [r2, r1, r3, List.append_assoc]
  rfl

/-- C7 (witness): the append-composition theorem instantiated at the initial
(null, size 0) buffer state. -/
theorem append_twice_eq_append_once_witness :
    (scunit_vrasnprintf true true true true ⟨none, 0⟩ ['A']).2 = SCUnitError.noError ∧
      (scunit_vrasnprintf true true true true
        (scunit_vrasnprintf true true true true ⟨none, 0⟩ ['A']).1 ['B']).2
          = SCUnitError.noError ∧
      (scunit_vrasnprintf true true true true ⟨none, 0⟩ ['A', 'B']).2
          = SCUnitError.noError ∧
      readCString (scunit_vrasnprintf true true true true
          (scunit_vrasnprintf true true true true ⟨none, 0⟩ ['A']).1 ['B']).1
        = readCString (scunit_vrasnprintf true true true true ⟨none, 0⟩ ['A', 'B']).1 :=
  append_twice_eq_append_once ⟨none, 0⟩
    ⟨le_rfl, by simp, fun arr h => Option.noConfusion h⟩

set_option maxRecDepth 16384 in
/-- C6 (counterexample): a plain overwrite call on an initially empty buffer
with 128 bytes of text, whose initial 128-byte allocation succeeds but whose
growth to 129 bytes fails, returns `OutOfMemory` with the reported size changed
from 0 to 128 and the buffer pointer changed from null to the new allocation —
not the values they had before the call. -/
theorem vrsnprintf_failure_changes_size :
    (scunit_vrsnprintf true false true true ⟨none, 0⟩ (List.replicate 128 'a')).2
        = SCUnitError.outOfMemory ∧
      (scunit_vrsnprintf true false true true ⟨none, 0⟩ (List.replicate 128 'a')).1.size
        = 128 ∧
      (scunit_vrsnprintf true false true true ⟨none, 0⟩
          (List.replicate 128 'a')).1.buf ≠ (⟨none, 0⟩ : SCUnitBuffer).buf ∧
      (128 : Int) ≠ 0 := by
  decide

set_option maxRecDepth 16384 in
/-- C6 (amended): every individual resizing step (`ensureSize`) that fails
leaves the buffer pointer and the reported size exactly as they were before
that step; but a writer call that returns `OutOfMemory` or `WriteFailed` after
an earlier successful internal resize (such as the initial 128-byte
allocation) reports the buffer and size as updated by that resize, not the
pre-call values. -/
theorem ensureSize_failure_atomic :
    (∀ (allocOk : Bool) (st : SCUnitBuffer) (requiredSize : Int),
      (ensureSize allocOk st requiredSize).2 ≠ SCUnitError.noError →
        (ensureSize allocOk st requiredSize).1 = st) ∧
    (∃ st : SCUnitBuffer, ∃ text : List Char,
      (scunit_vrsnprintf true false true true st text).2 = SCUnitError.outOfMemory ∧
        (scunit_vrsnprintf true false true true st text).1.size ≠ st.size) := by
  constructor
  · intro allocOk st req h
    unfold ensureSize at h ⊢
    by_cases h1 : st.size < 0 ∨ req < 0 ∨ ¬((st.buf = none) ↔ (st.size = 0))
    · rw [if_pos h1]
    · rw [if_neg h1] at h ⊢
      by_cases h2 : st.size < req
      · rw [if_pos h2] at h ⊢
        cases allocOk
        · rfl
        · exact absurd rfl h
      · rw [if_neg h2] at h
        exact absurd rfl h
  · exact ⟨⟨none, 0⟩, List.replicate 128 'a', by decide, by decide⟩

/-- C6 (witness): the per-step atomicity applied to a concrete failing
resize. -/
theorem ensureSize_failure_atomic_witness :
    (ensureSize false ⟨some [nulChar], 1⟩ 5).1 = ⟨some [nulChar], 1⟩ ∧
      (ensureSize false ⟨some [nulChar], 1⟩ 5).2 ≠ SCUnitError.noError :=
  ⟨ensureSize_failure_atomic.1 false ⟨some [nulChar], 1⟩ 5 (by decide), by decide⟩
